import Mathlib

/-!
Verification of the fetch-extract-cache-filter pipeline of News-app-V1
(file scripts/fetch.py).  The Python functions are shallowly embedded as
executable Lean definitions.  External libraries and network I/O
(requests, feedparser, BeautifulSoup, trafilatura, readability, dtparser,
robotparser reads) are abstracted as explicit oracle parameters; the
control flow, dedup keys, thresholds, caps and staleness arithmetic of the
repository code itself are translated concretely.  Instants on the global
timeline are modelled as integers counting seconds, so a timedelta of
H hours is 3600 * H and of D days is 86400 * D; a date-string oracle of
type String to Option Int stands for dtparser.parse combined with the
timezone normalisation applied at each call site (absent or unparseable
values become none, mirroring the try/except blocks).
-/

namespace NewsApp

/-! ## Shared string helpers (scripts/fetch.py lines 154-171) -/

/-- Whitespace characters of the regex class used by strip_ws. -/
def pySpace (c : Char) : Bool :=
  c = ' ' || c = '\t' || c = '\n' || c = '\r' || c = '\x0b' || c = '\x0c'

/-- The maximal whitespace-free words of a character list, in order
(helper for strip_ws; acc holds the current word reversed). -/
def wordsAux : List Char → List Char → List (List Char)
  | [], acc => if acc.isEmpty then [] else [acc.reverse]
  | c :: cs, acc =>
    if pySpace c then
      if acc.isEmpty then wordsAux cs [] else acc.reverse :: wordsAux cs []
    else wordsAux cs (c :: acc)

/-- Interleave single spaces between words (helper for strip_ws). -/
def joinWords : List (List Char) → List Char
  | [] => []
  | [w] => w
  | w :: ws => w ++ ' ' :: joinWords ws

/-- strip_ws (lines 154-155): the regex substitution collapses every
whitespace run to a single space and the strip trims the ends;
equivalently, the nonempty whitespace-free words joined by single
spaces. -/
def strip_ws (s : String) : String :=
  String.mk (joinWords (wordsAux s.toList []))

/-- clean_url (lines 167-171): urlparse the URL, blank out the query and
fragment components and reassemble.  For the URL grammar this equals
truncating at the first question mark or hash character. -/
def clean_url (u : String) : String :=
  String.mk (u.toList.takeWhile (fun c => c ≠ '?' && c ≠ '#'))

/-- Python truthiness for an optional string field: a missing key and an
empty string are both falsy. -/
def getStr (o : Option String) : String := o.getD ""

/-! ## Data model -/

/-- An announcement item as built by fetch_source / scrape_items_from_page
(the dictionaries with keys title, url, summary, published_at).  The
source name attached in main and the content_html attached by the content
stage never feed into dedup, the window filter or the sort key and are
omitted. -/
structure Item where
  title : String
  url : String
  summary : String
  published_at : Option String
  deriving Repr, DecidableEq

/-- A persisted cache entry (content_html, fetched_at); either key can be
absent in a malformed file. -/
structure CacheEntry where
  content_html : Option String
  fetched_at : Option String
  deriving Repr, DecidableEq

/-- The content cache: a JSON object, i.e. an insertion-ordered map from
URL to entry, modelled as an association list. -/
abbrev Cache := List (String × CacheEntry)

/-- Ordered-map lookup (Python dict read). -/
def lookupAssoc {α : Type} (l : List (String × α)) (k : String) : Option α :=
  (l.find? (fun kv => kv.1 = k)).map Prod.snd

/-- Ordered-map write (Python dict assignment): an existing key keeps its
position, a new key is appended. -/
def setAssoc {α : Type} : List (String × α) → String → α → List (String × α)
  | [], k, v => [(k, v)]
  | kv :: rest, k, v =>
    if kv.1 = k then (k, v) :: rest else kv :: setAssoc rest k v

/-! ## Tunables (scripts/fetch.py lines 32-37) -/

def MAX_ARTICLES_TOTAL : Nat := 120
def MAX_NEW_FETCHES : Nat := 30
def CACHE_MAX_ENTRIES : Nat := 3000
/-- CACHE_STALE_DAYS as a timedelta in seconds. -/
def CACHE_STALE_SECONDS : Int := 14 * 86400

/-! ## ContentCache (scripts/fetch.py lines 422-448) -/

/-- The sort key save_cache trims by: the fetched_at string, or the empty
string when the field is missing. -/
def fetchedKey (e : CacheEntry) : String := getStr e.fetched_at

/-- save_cache (lines 422-433): when the entry count exceeds
CACHE_MAX_ENTRIES, keep the CACHE_MAX_ENTRIES entries whose fetched_at
strings sort highest (Python sorted with reverse, a stable descending
sort); the file write itself is I/O and is dropped.  The function returns
the persisted mapping. -/
def save_cache (cache : Cache) : Cache :=
  if CACHE_MAX_ENTRIES < cache.length then
    (cache.mergeSort (fun a b => fetchedKey b.2 ≤ fetchedKey a.2)).take CACHE_MAX_ENTRIES
  else cache

/-- cache_get (lines 435-445): a hit returns the stored content_html only
when the entry exists, its fetched_at parses, and now minus the parsed
instant is at most the staleness window; every other path is a miss
(returns none).  dtparse is the date oracle. -/
def cache_get (dtparse : String → Option Int) (cache : Cache) (url : String)
    (now : Int) : Option String :=
  match lookupAssoc cache url with
  | none => none
  | some entry =>
    match entry.fetched_at with
    | none => none
    | some s =>
      match dtparse s with
      | none => none
      | some t =>
        if now - t ≤ CACHE_STALE_SECONDS then entry.content_html else none

/-- cache_put (lines 447-448): overwrite the slot for the URL with the new
content and the formatted current instant; fmt abstracts
datetime.now(tz).isoformat(). -/
def cache_put (fmt : Int → String) (cache : Cache) (url : String)
    (content : String) (now : Int) : Cache :=
  setAssoc cache url ⟨some content, some (fmt now)⟩

/-! ### Assoc-list lemmas -/

theorem lookupAssoc_cons {α : Type} (kv : String × α) (rest : List (String × α)) (k : String) :
    lookupAssoc (kv :: rest) k = if kv.1 = k then some kv.2 else lookupAssoc rest k := by
  by_cases h : kv.1 = k <;> simp [lookupAssoc, List.find?, h]

theorem lookupAssoc_setAssoc_self {α : Type} (l : List (String × α)) (k : String) (v : α) :
    lookupAssoc (setAssoc l k v) k = some v := by
  induction l with
  | nil => simp [setAssoc, lookupAssoc_cons]
  | cons kv rest ih =>
    by_cases h : kv.1 = k
    · simp [setAssoc, h, lookupAssoc_cons]
    · simp [setAssoc, h, lookupAssoc_cons, ih]

theorem lookupAssoc_setAssoc_ne {α : Type} (l : List (String × α)) (k k' : String) (v : α)
    (hne : k' ≠ k) : lookupAssoc (setAssoc l k v) k' = lookupAssoc l k' := by
  induction l with
  | nil => simp [setAssoc, lookupAssoc_cons, Ne.symm hne]
  | cons kv rest ih =>
    by_cases h : kv.1 = k
    · simp [setAssoc, h, lookupAssoc_cons, Ne.symm hne]
    · by_cases h2 : kv.1 = k'
      · simp [setAssoc, h, lookupAssoc_cons, h2, hne]
      · simp [setAssoc, h, lookupAssoc_cons, h2, ih, hne]

/-! ## SourceResolver (scripts/fetch.py lines 215-331) -/

/-- A feed entry as seen through feedparser: the date-bearing and text
fields read by fetch_source / parse_entry_datetime; a missing key reads
as none. -/
structure FeedEntry where
  link : Option String
  title : Option String
  summary : Option String
  description : Option String
  published : Option String
  updated : Option String
  created : Option String
  deriving Repr, DecidableEq

/-- The key loop of parse_entry_datetime (lines 232-245): first
date-bearing field whose value is nonempty and parses wins. -/
def firstParsedDate (dtparse : String → Option Int) : List (Option String) → Option Int
  | [] => none
  | v :: rest =>
    if getStr v = "" then firstParsedDate dtparse rest
    else
      match dtparse (getStr v) with
      | some t => some t
      | none => firstParsedDate dtparse rest

/-- parse_entry_datetime: try published, then updated, then created. -/
def parse_entry_datetime (dtparse : String → Option Int) (e : FeedEntry) : Option Int :=
  firstParsedDate dtparse [e.published, e.updated, e.created]

/-- The per-entry body of the feed loops in fetch_source (lines 273-284
and 304-315): skip the entry when the cleaned link or the stripped title
is empty, otherwise build the item.  getText abstracts BeautifulSoup
get_text on the summary markup; fmt abstracts to_iso. -/
def entryToItem? (dtparse : String → Option Int) (fmt : Int → String)
    (getText : String → String) (e : FeedEntry) : Option Item :=
  let url := clean_url (getStr e.link)
  if url = "" then none
  else
    let title := strip_ws (getStr e.title)
    if title = "" then none
    else
      let summaryHtml := if getStr e.summary ≠ "" then getStr e.summary else getStr e.description
      some ⟨title, url, strip_ws (getText summaryHtml), (parse_entry_datetime dtparse e).map fmt⟩

/-- The feed-entry loop: only the first 80 entries are considered. -/
def feedEntriesToItems (dtparse : String → Option Int) (fmt : Int → String)
    (getText : String → String) (entries : List FeedEntry) : List Item :=
  (entries.take 80).filterMap (entryToItem? dtparse fmt getText)

/-- An element produced by the structural selector in
scrape_items_from_page: its href attribute (possibly absent) and its
visible text. -/
structure ScrapeEl where
  href : Option String
  text : String
  deriving Repr, DecidableEq

/-- scrape_items_from_page (lines 215-230), applied to the selected
elements: skip an element whose href is missing or whose stripped text is
empty; joinUrl abstracts urljoin. -/
def scrape_items_from_page (joinUrl : String → String → String) (base : String)
    (els : List ScrapeEl) : List Item :=
  els.filterMap (fun el =>
    if getStr el.href = "" then none
    else
      let title := strip_ws el.text
      if title = "" then none
      else some ⟨title, clean_url (joinUrl base (getStr el.href)), "", none⟩)

/-- A source descriptor from sources.yaml as read by fetch_source.  The
per-source timeout, feed_timeout, user_agent and headers keys only
configure the abstracted HTTP layer and are folded into the fetch
oracle. -/
structure Source where
  name : Option String
  feed : Option String
  homepage : Option String
  selector : Option String
  deriving Repr

/-- Modelled from the spec: the HTTP helper named with a leading
underscore and called at lines 248 and 292 of scripts/fetch.py is not
defined under src/; per the spec it performs a GET with the per-source
timeout, optional custom user-agent and extra headers and returns the
response body.  Together with raise_for_status a failing call raises; the
error value carries the formatted exception message that the outer
handler of fetch_source would build. -/
abbrev HttpGetOracle := String → Except String String

/-- The feed fetch-and-revive helper of lines 247-250: GET the endpoint,
raise on HTTP error, hand the bytes to feedparser (abstracted by feedOf,
which is total; a malformed feed only sets the bozo flag, which is merely
logged). -/
def parseFeedWithHeaders (httpGet : HttpGetOracle) (feedOf : String → List FeedEntry)
    (url : String) : Except String (List FeedEntry) :=
  (httpGet url).map feedOf

/-- The discovered-feed loop of fetch_source (lines 298-318): try each
candidate feed, skipping those whose fetch or parse raises, concatenating
the extracted items. -/
def collectFeedItems (dtparse : String → Option Int) (fmt : Int → String)
    (getText : String → String) (httpGet : HttpGetOracle)
    (feedOf : String → List FeedEntry) : List String → List Item
  | [] => []
  | u :: rest =>
    match parseFeedWithHeaders httpGet feedOf u with
    | Except.error _ => collectFeedItems dtparse fmt getText httpGet feedOf rest
    | Except.ok es =>
      feedEntriesToItems dtparse fmt getText es ++
        collectFeedItems dtparse fmt getText httpGet feedOf rest

/-- fetch_source (lines 253-331): explicit feed first (authoritative, no
fallback), else homepage fetch, feed discovery over the first two
candidates, and finally the structural scrape; any exception escaping a
stage that is not individually guarded is caught at the boundary and
becomes the error string of the triple.  findFeeds abstracts
find_feed_links (html, base url); selectEls abstracts the BeautifulSoup
select over the configured selector. -/
def fetch_source (dtparse : String → Option Int) (fmt : Int → String)
    (getText : String → String) (httpGet : HttpGetOracle)
    (feedOf : String → List FeedEntry) (findFeeds : String → String → List String)
    (selectEls : String → Option String → List ScrapeEl)
    (joinUrl : String → String → String) (src : Source) :
    String × List Item × Option String :=
  let name := src.name.getD "Unknown Source"
  if getStr src.feed ≠ "" then
    match parseFeedWithHeaders httpGet feedOf (getStr src.feed) with
    | Except.error e => (name, [], some e)
    | Except.ok es => (name, feedEntriesToItems dtparse fmt getText es, none)
  else if getStr src.homepage = "" then
    (name, [], some "No feed or homepage provided")
  else
    match httpGet (getStr src.homepage) with
    | Except.error e => (name, [], some e)
    | Except.ok html =>
      let items := collectFeedItems dtparse fmt getText httpGet feedOf
        ((findFeeds html (getStr src.homepage)).take 2)
      if items ≠ [] then (name, items, none)
      else (name, scrape_items_from_page joinUrl (getStr src.homepage)
        (selectEls html src.selector), none)

/-! ## Deduplicator/TimeFilter (scripts/fetch.py lines 451-481) -/

/-- The in-place restripping the dedup loop applies to a surviving
item. -/
def restrip (it : Item) : Item :=
  { it with title := strip_ws it.title, summary := strip_ws it.summary }

/-- The first pass of normalize_and_filter (lines 452-459): skip items
with an empty url or an already seen url, restrip and keep the rest. -/
def dedupLoop : List String → List Item → List Item
  | _, [] => []
  | seen, it :: rest =>
    if it.url = "" || seen.contains it.url then dedupLoop seen rest
    else restrip it :: dedupLoop (it.url :: seen) rest

/-- The dedup pass started with an empty seen set. -/
def dedupPass (l : List Item) : List Item := dedupLoop [] l

/-- The keep/drop decision of the window loop (lines 466-478): keep when
published_at is absent or unparseable, else keep exactly when the parsed
instant is at or after the cutoff. -/
def keepRecent (dtparse : String → Option Int) (cutoff : Int) (it : Item) : Bool :=
  match it.published_at with
  | none => true
  | some iso =>
    match dtparse iso with
    | none => true
    | some t => cutoff ≤ t

/-- The window loop as a filter. -/
def windowPass (dtparse : String → Option Int) (cutoff : Int) (l : List Item) : List Item :=
  l.filter (keepRecent dtparse cutoff)

/-- normalize_and_filter (lines 451-481): dedup, window filter with
cutoff now - WINDOW_HOURS, then the hard cap keep[:MAX_ARTICLES_TOTAL].
The window is the RECENT_HOURS configuration value. -/
def normalize_and_filter (dtparse : String → Option Int) (now windowHours : Int)
    (l : List Item) : List Item :=
  (windowPass dtparse (now - 3600 * windowHours) (dedupPass l)).take MAX_ARTICLES_TOTAL

/-- sort_key of main (lines 593-601): the parsed publication instant,
with the epoch (0) as fallback for undated or unparseable items. -/
def sort_key (dtparse : String → Option Int) (it : Item) : Int :=
  match it.published_at with
  | none => 0
  | some iso =>
    match dtparse iso with
    | none => 0
    | some t => t

/-- The final recency sort of main (line 602): Python list.sort with a
key and reverse is a stable descending sort. -/
def sortNewestFirst (dtparse : String → Option Int) (l : List Item) : List Item :=
  l.mergeSort (fun a b => sort_key dtparse b ≤ sort_key dtparse a)

/-- The composition main applies to the collected items: filter first
(normalize_and_filter, which caps), then sort the survivors newest first.
The content-attach stage in between mutates only summary/content fields,
never url or published_at, so it is dropped here. -/
def mainKept (dtparse : String → Option Int) (now windowHours : Int)
    (l : List Item) : List Item :=
  sortNewestFirst dtparse (normalize_and_filter dtparse now windowHours l)

/-! ## Extractor (scripts/fetch.py lines 346-402) -/

/-- prune_html (lines 346-369) with the BeautifulSoup transformation
abstracted: core html base stands for the pipeline that removes the
blocked tags, role-marked chrome, boilerplate-classed elements, link-dense
rafts and images and absolutizes links, returning the stripped visible
text together with the serialized markup; none models an exception inside
that pipeline.  The 120-character floor below which the strategy output
is discarded as empty is concrete. -/
def prune_html (core : String → String → Option (String × String))
    (html base : String) : String :=
  match core html base with
  | none => ""
  | some p => if p.1.length < 120 then "" else p.2

/-- The strategy-3 candidate loop of extract_main_content (lines
391-398): prune each article/main container node, returning the first
nonempty pruned output. -/
def firstPruned (core : String → String → Option (String × String))
    (url : String) : List String → String
  | [] => ""
  | node :: rest =>
    let p := prune_html core node url
    if p ≠ "" then p else firstPruned core url rest

/-- extract_main_content (lines 371-402): trafilatura output, then the
readability Document summary, then the first article/main container, each
pruned, returning the first nonempty pruned result and the empty string
when every strategy fails.  trafOut and readabOut yield the raw strategy
markup, with none modelling an exception or an empty result;
containerNodes yields the serialized article-or-main candidates. -/
def extract_main_content (core : String → String → Option (String × String))
    (trafOut readabOut : String → Option String)
    (containerNodes : String → List String) (html url : String) : String :=
  let s1 := match trafOut html with
    | none => ""
    | some out => prune_html core out url
  if s1 ≠ "" then s1
  else
    let s2 := match readabOut html with
      | none => ""
      | some out => prune_html core out url
    if s2 ≠ "" then s2
    else firstPruned core url (containerNodes html)

/-! ## PolitenessGate (scripts/fetch.py lines 108-128 and 538-555) -/

/-- A parsed robots directive file: the can_fetch verdict for the fixed
user agent as a function of the path. -/
abbrev RobotsPolicy := String → Bool

/-- The module-level ROBOTS_CACHE: per-origin, none records a failed
read. -/
abbrev RobotsDirs := List (String × Option RobotsPolicy)

/-- robots_can_fetch (lines 108-128).  urlParts abstracts urlparse,
returning (scheme plus netloc, path); readRobots abstracts constructing
and reading robots.txt for an origin, with none modelling a read
exception.  A cached failure is stored as none, which the lookup cannot
distinguish from an absent key, so it is re-read; a read failure caches
none and returns True; the path defaults to the root when empty. -/
def robots_can_fetch (urlParts : String → String × String)
    (readRobots : String → Option RobotsPolicy) (rc : RobotsDirs)
    (url : String) : Bool × RobotsDirs :=
  let base := (urlParts url).1
  let eff := if (urlParts url).2 = "" then "/" else (urlParts url).2
  match lookupAssoc rc base with
  | some (some rp) => (rp eff, rc)
  | some none =>
    match readRobots base with
    | none => (true, setAssoc rc base none)
    | some rp => (rp eff, setAssoc rc base (some rp))
  | none =>
    match readRobots base with
    | none => (true, setAssoc rc base none)
    | some rp => (rp eff, setAssoc rc base (some rp))

/-- The stateless verdict the gate computes for a URL: allow when the
robots read fails, else the policy verdict on the (root-defaulted)
path. -/
def allowedBy (urlParts : String → String × String)
    (readRobots : String → Option RobotsPolicy) (url : String) : Bool :=
  match readRobots (urlParts url).1 with
  | none => true
  | some rp => rp (if (urlParts url).2 = "" then "/" else (urlParts url).2)

/-- The robots cache only stores policies the read oracle produced. -/
def robotsConsistent (readRobots : String → Option RobotsPolicy)
    (rc : RobotsDirs) : Prop :=
  ∀ b rp, lookupAssoc rc b = some (some rp) → readRobots b = some rp

/-- The to_fetch selection loop of main (lines 538-553): skip items with
an empty url; a truthy cached content is a hit (content attached, no
fetch); otherwise the item is queued exactly when robots_can_fetch
allows, threading the robots cache. -/
def selectLoop (dtparse : String → Option Int) (urlParts : String → String × String)
    (readRobots : String → Option RobotsPolicy) (ccache : Cache) (now : Int) :
    RobotsDirs → List Item → List Item × RobotsDirs
  | rc, [] => ([], rc)
  | rc, it :: rest =>
    if it.url = "" then selectLoop dtparse urlParts readRobots ccache now rc rest
    else if getStr (cache_get dtparse ccache it.url now) ≠ "" then
      selectLoop dtparse urlParts readRobots ccache now rc rest
    else
      let res := robots_can_fetch urlParts readRobots rc it.url
      if res.1 then
        let tail := selectLoop dtparse urlParts readRobots ccache now res.2 rest
        (it :: tail.1, tail.2)
      else selectLoop dtparse urlParts readRobots ccache now res.2 rest

/-- The ConcurrentFetcher input set: the selection loop output capped to
MAX_NEW_FETCHES (line 555). -/
def toFetchSet (dtparse : String → Option Int) (urlParts : String → String × String)
    (readRobots : String → Option RobotsPolicy) (ccache : Cache) (now : Int)
    (rc : RobotsDirs) (kept : List Item) : List Item :=
  (selectLoop dtparse urlParts readRobots ccache now rc kept).1.take MAX_NEW_FETCHES

/-! ## Theorems -/

/-- C10: a cached entry whose fetched_at field is absent or whose
fetched_at string does not parse is always a miss for cache_get, never a
hit and never a failure, so a malformed cache entry can only trigger a
refresh. -/
theorem cache_get_malformed_entry_misses
    (dtparse : String → Option Int) (cache : Cache) (url : String)
    (e : CacheEntry) (now : Int) (hlk : lookupAssoc cache url = some e) :
    (e.fetched_at = none → cache_get dtparse cache url now = none) ∧
    (∀ s, e.fetched_at = some s → dtparse s = none →
      cache_get dtparse cache url now = none) := by
  constructor
  · intro h
    simp [cache_get, hlk, h]
  · intro s hs hp
    simp [cache_get, hlk, hs, hp]

def c10cache : Cache := [("u", ⟨some "c", none⟩), ("v", ⟨some "c", some "garbage"⟩)]

/-- Table-based date oracle used by the concrete witnesses: parses the
few timestamp strings they mention and rejects everything else. -/
def demoParse (s : String) : Option Int :=
  if s = "100" then some 100
  else if s = "3599" then some 3599
  else if s = "3600" then some 3600
  else if s = "5" then some 5
  else none

/-- Table-based formatting oracle paired with demoParse. -/
def demoFmt (n : Int) : String :=
  if n = 5 then "5" else "?"

theorem cache_get_malformed_entry_misses_witness :
    lookupAssoc c10cache "u" = some ⟨some "c", none⟩ ∧
    lookupAssoc c10cache "v" = some ⟨some "c", some "garbage"⟩ ∧
    demoParse "garbage" = none ∧
    cache_get demoParse c10cache "u" 0 = none ∧
    cache_get demoParse c10cache "v" 0 = none := by
  refine ⟨by decide, by decide, by decide, ?_, ?_⟩
  · exact (cache_get_malformed_entry_misses demoParse c10cache "u"
      ⟨some "c", none⟩ 0 (by decide)).1 rfl
  · exact (cache_get_malformed_entry_misses demoParse c10cache "v"
      ⟨some "c", some "garbage"⟩ 0 (by decide)).2 "garbage" rfl (by decide)

/-- C6: for a cached entry whose fetched_at parses to the instant t and
which stores content, cache_get is a hit (returning the stored content) at
every query time up to t plus the staleness window, and a miss at every
later time; the miss does not remove the entry (cache_get is read-only in
the source), and a later cache_put on the same URL supersedes it, after
which cache_get returns the new content. -/
theorem cache_staleness_boundary
    (dtparse : String → Option Int) (fmt : Int → String) (cache : Cache)
    (url s c : String) (e : CacheEntry) (t : Int)
    (hlk : lookupAssoc cache url = some e) (hf : e.fetched_at = some s)
    (hp : dtparse s = some t) (hc : e.content_html = some c) :
    (∀ now, now - t ≤ CACHE_STALE_SECONDS → cache_get dtparse cache url now = some c) ∧
    (∀ now, CACHE_STALE_SECONDS < now - t → cache_get dtparse cache url now = none) ∧
    (∀ c2 tput now2, dtparse (fmt tput) = some tput →
      now2 - tput ≤ CACHE_STALE_SECONDS →
      cache_get dtparse (cache_put fmt cache url c2 tput) url now2 = some c2) := by
  refine ⟨?_, ?_, ?_⟩
  · intro now h
    simp [cache_get, hlk, hf, hp, h, hc]
  · intro now h
    simp [cache_get, hlk, hf, hp, not_le.mpr h]
  · intro c2 tput now2 hparse h
    simp [cache_get, cache_put, lookupAssoc_setAssoc_self, hparse, h]

def c6cache : Cache := [("u", ⟨some "c", some "100"⟩)]

theorem cache_staleness_boundary_witness :
    lookupAssoc c6cache "u" = some ⟨some "c", some "100"⟩ ∧
    demoParse "100" = some 100 ∧
    cache_get demoParse c6cache "u" (100 + CACHE_STALE_SECONDS) = some "c" ∧
    cache_get demoParse c6cache "u" (101 + CACHE_STALE_SECONDS) = none ∧
    cache_get demoParse (cache_put demoFmt c6cache "u" "c2" 5)
      "u" 5 = some "c2" := by
  have H := cache_staleness_boundary demoParse demoFmt c6cache
    "u" "100" "c" ⟨some "c", some "100"⟩ 100 (by decide) rfl (by decide) rfl
  exact ⟨by decide, by decide, H.1 _ (by decide), H.2.1 _ (by decide),
    H.2.2 "c2" 5 5 (by decide) (by decide)⟩

/-- C3: in the recency window pass with window W hours at time now, a
deduplicated item whose parseable timestamp is before the cutoff
now - W is dropped, one whose parseable timestamp is at or after the
cutoff is kept, and an item with no timestamp or an unparseable timestamp
is always kept; an item dropped by the window also never reaches the
capped output of normalize_and_filter. -/
theorem window_filter_keeps_and_drops
    (dtparse : String → Option Int) (now windowHours : Int) (l : List Item)
    (it : Item) (hmem : it ∈ l) :
    (it.published_at = none → it ∈ windowPass dtparse (now - 3600 * windowHours) l) ∧
    (∀ s, it.published_at = some s → dtparse s = none →
      it ∈ windowPass dtparse (now - 3600 * windowHours) l) ∧
    (∀ s t, it.published_at = some s → dtparse s = some t →
      (it ∈ windowPass dtparse (now - 3600 * windowHours) l ↔
        now - 3600 * windowHours ≤ t)) ∧
    (∀ l0, it ∉ windowPass dtparse (now - 3600 * windowHours) (dedupPass l0) →
      it ∉ normalize_and_filter dtparse now windowHours l0) := by
  refine ⟨?_, ?_, ?_, ?_⟩
  · intro h
    simp [windowPass, List.mem_filter, hmem, keepRecent, h]
  · intro s hs hp
    simp [windowPass, List.mem_filter, hmem, keepRecent, hs, hp]
  · intro s t hs hp
    simp [windowPass, List.mem_filter, hmem, keepRecent, hs, hp]
  · intro l0 hnot hin
    exact hnot (List.mem_of_mem_take hin)

def c3und : Item := ⟨"a", "u1", "", none⟩
def c3bad : Item := ⟨"b", "u2", "", some "x"⟩
def c3old : Item := ⟨"c", "u3", "", some "3599"⟩
def c3new : Item := ⟨"d", "u4", "", some "3600"⟩
def c3list : List Item := [c3und, c3bad, c3old, c3new]

theorem window_filter_keeps_and_drops_witness :
    c3und ∈ windowPass demoParse (7200 - 3600 * 1) c3list ∧
    c3bad ∈ windowPass demoParse (7200 - 3600 * 1) c3list ∧
    c3old ∉ windowPass demoParse (7200 - 3600 * 1) c3list ∧
    c3new ∈ windowPass demoParse (7200 - 3600 * 1) c3list := by
  have Hund := window_filter_keeps_and_drops demoParse 7200 1 c3list c3und
    (by decide)
  have Hbad := window_filter_keeps_and_drops demoParse 7200 1 c3list c3bad
    (by decide)
  have Hold := window_filter_keeps_and_drops demoParse 7200 1 c3list c3old
    (by decide)
  have Hnew := window_filter_keeps_and_drops demoParse 7200 1 c3list c3new
    (by decide)
  refine ⟨Hund.1 rfl, Hbad.2.1 "x" rfl (by decide), ?_, ?_⟩
  · intro hin
    have := (Hold.2.2.1 "3599" 3599 rfl (by decide)).1 hin
    omega
  · exact (Hnew.2.2.1 "3600" 3600 rfl (by decide)).2 (by omega)

theorem take_mergeSort_cross {α : Type} (le : α → α → Bool)
    (htrans : ∀ a b c, le a b = true → le b c = true → le a c = true)
    (htotal : ∀ a b, (le a b || le b a) = true) (l : List α) (n : Nat) :
    ∀ x ∈ (l.mergeSort le).take n, ∀ y ∈ l, y ∉ (l.mergeSort le).take n →
      le x y = true := by
  intro x hx y hy hyn
  have hsort := List.sorted_mergeSort htrans htotal l
  have hy2 : y ∈ l.mergeSort le := (List.mem_mergeSort).2 hy
  have hsplit := List.take_append_drop n (l.mergeSort le)
  have hy3 : y ∈ (l.mergeSort le).take n ++ (l.mergeSort le).drop n := by
    rw [hsplit]; exact hy2
  have hy4 : y ∈ (l.mergeSort le).drop n := by
    rcases List.mem_append.1 hy3 with h | h
    · exact absurd h hyn
    · exact h
  have hp : List.Pairwise (fun a b => le a b = true)
      ((l.mergeSort le).take n ++ (l.mergeSort le).drop n) := by
    rw [hsplit]; exact hsort
  exact (List.pairwise_append.1 hp).2.2 x hx y hy4

/-- C5: save_cache never persists more than CACHE_MAX_ENTRIES entries;
when the input exceeds the capacity, exactly CACHE_MAX_ENTRIES entries
are retained, and every retained entry has a fetched_at key at least as
recent (in the string order the code sorts by) as every evicted one. -/
theorem save_cache_capacity (cache : Cache) :
    (save_cache cache).length ≤ CACHE_MAX_ENTRIES ∧
    (CACHE_MAX_ENTRIES < cache.length →
      (save_cache cache).length = CACHE_MAX_ENTRIES ∧
      ∀ x ∈ save_cache cache, ∀ y ∈ cache, y ∉ save_cache cache →
        fetchedKey y.2 ≤ fetchedKey x.2) := by
  by_cases hlen : CACHE_MAX_ENTRIES < cache.length
  · have hunf : save_cache cache =
        (cache.mergeSort (fun a b => fetchedKey b.2 ≤ fetchedKey a.2)).take
          CACHE_MAX_ENTRIES := by
      simp [save_cache, hlen]
    have htrans : ∀ a b c : String × CacheEntry,
        (decide (fetchedKey b.2 ≤ fetchedKey a.2)) = true →
        (decide (fetchedKey c.2 ≤ fetchedKey b.2)) = true →
        (decide (fetchedKey c.2 ≤ fetchedKey a.2)) = true := by
      intro a b c hab hbc
      simp only [decide_eq_true_eq] at *
      exact le_trans hbc hab
    have htotal : ∀ a b : String × CacheEntry,
        ((decide (fetchedKey b.2 ≤ fetchedKey a.2)) ||
          (decide (fetchedKey a.2 ≤ fetchedKey b.2))) = true := by
      intro a b
      rcases le_total (fetchedKey b.2) (fetchedKey a.2) with h | h <;> simp [h]
    have hlength : (save_cache cache).length = CACHE_MAX_ENTRIES := by
      rw [hunf, List.length_take, List.length_mergeSort]
      omega
    refine ⟨le_of_eq hlength, fun _ => ⟨hlength, ?_⟩⟩
    intro x hx y hy hyn
    rw [hunf] at hx hyn
    have := take_mergeSort_cross
      (fun a b : String × CacheEntry => decide (fetchedKey b.2 ≤ fetchedKey a.2))
      htrans htotal cache CACHE_MAX_ENTRIES x hx y hy hyn
    simpa using this
  · have hunf : save_cache cache = cache := by simp [save_cache, hlen]
    constructor
    · rw [hunf]; omega
    · intro h; exact absurd h hlen

def bigCache : Cache :=
  (List.range 3001).map (fun i => (toString i, ⟨some "c", some (toString i)⟩))

theorem save_cache_capacity_witness :
    CACHE_MAX_ENTRIES < bigCache.length ∧
    ((save_cache bigCache).length = CACHE_MAX_ENTRIES ∧
      ∀ x ∈ save_cache bigCache, ∀ y ∈ bigCache, y ∉ save_cache bigCache →
        fetchedKey y.2 ≤ fetchedKey x.2) := by
  have h : CACHE_MAX_ENTRIES < bigCache.length := by
    simp [bigCache, CACHE_MAX_ENTRIES]
  exact ⟨h, (save_cache_capacity bigCache).2 h⟩

/-- The date oracle of the cap-before-sort demonstration. -/
def lateParse (s : String) : Option Int :=
  if s = "B" then some 100 else if s = "A" then some 1 else none

/-- The most recent item of the demonstration, collected last in merge
order. -/
def lateItem : Item := ⟨"t", "last", "", some "B"⟩

/-- 120 older items followed by the single most recent one. -/
def lateList : List Item :=
  (List.range MAX_ARTICLES_TOTAL).map
    (fun i => ⟨"t", String.append "u" (toString i), "", some "A"⟩) ++ [lateItem]

set_option maxHeartbeats 2000000 in
set_option maxRecDepth 8000 in
/-- C4: normalize_and_filter applies the hard cap to the time-filtered
list before any sorting, retaining its first MAX_ARTICLES_TOTAL items in
merge order, and main sorts only that retained set; concretely, on a
merged list whose last item is strictly more recent than the 120 items
before it, that item survives dedup and the window yet is excluded from
the sorted output, whose members all have strictly smaller sort keys. -/
theorem cap_is_applied_before_sort :
    (∀ (dtparse : String → Option Int) (now windowHours : Int) (l : List Item),
      normalize_and_filter dtparse now windowHours l =
        (windowPass dtparse (now - 3600 * windowHours) (dedupPass l)).take
          MAX_ARTICLES_TOTAL ∧
      mainKept dtparse now windowHours l =
        sortNewestFirst dtparse
          ((windowPass dtparse (now - 3600 * windowHours) (dedupPass l)).take
            MAX_ARTICLES_TOTAL)) ∧
    (lateItem ∈ windowPass lateParse (3600 - 3600 * 1) (dedupPass lateList) ∧
      lateItem ∉ mainKept lateParse 3600 1 lateList ∧
      ∀ it ∈ mainKept lateParse 3600 1 lateList,
        sort_key lateParse it < sort_key lateParse lateItem) := by
  refine ⟨fun dtparse now windowHours l => ⟨rfl, rfl⟩, ?_, ?_, ?_⟩
  · decide
  · have hnot : lateItem ∉ normalize_and_filter lateParse 3600 1 lateList := by
      decide
    intro hin
    unfold mainKept sortNewestFirst at hin
    exact hnot ((List.mem_mergeSort).1 hin)
  · have hall : ∀ it ∈ normalize_and_filter lateParse 3600 1 lateList,
        sort_key lateParse it < sort_key lateParse lateItem := by decide
    intro it hit
    unfold mainKept sortNewestFirst at hit
    exact hall it ((List.mem_mergeSort).1 hit)

/-- C7: extract_main_content runs its strategies in the fixed order
trafilatura, readability, article/main container, returning the first
pruned output that is nonempty, i.e. clears the 120-character post-prune
floor: a nonempty pruned strategy-1 output is returned outright; when
strategies 1 and 2 prune to empty and some container candidate prunes
nonempty, the result is the pruned output of the first such candidate;
and any strategy output whose pruned text is under the floor is discarded
as empty. -/
theorem firstPruned_cons (core : String → String → Option (String × String))
    (url node : String) (rest : List String) :
    firstPruned core url (node :: rest) =
      if prune_html core node url ≠ "" then prune_html core node url
      else firstPruned core url rest := rfl

theorem extractor_chain_first_clearing
    (core : String → String → Option (String × String))
    (trafOut readabOut : String → Option String)
    (containerNodes : String → List String) (html url : String) :
    (∀ o1, trafOut html = some o1 → prune_html core o1 url ≠ "" →
      extract_main_content core trafOut readabOut containerNodes html url =
        prune_html core o1 url) ∧
    ((∀ o, trafOut html = some o → prune_html core o url = "") →
      (∀ o, readabOut html = some o → prune_html core o url = "") →
      ∀ pre node post, containerNodes html = pre ++ node :: post →
        (∀ m ∈ pre, prune_html core m url = "") → prune_html core node url ≠ "" →
        extract_main_content core trafOut readabOut containerNodes html url =
          prune_html core node url) ∧
    (∀ h b cl out, core h b = some (cl, out) → cl.length < 120 →
      prune_html core h b = "") := by
  refine ⟨?_, ?_, ?_⟩
  · intro o1 h1 hne
    unfold extract_main_content
    rw [h1]
    simp [hne]
  · intro htraf hread pre node post hnodes hall hne
    have hfp : ∀ preL : List String, (∀ m ∈ preL, prune_html core m url = "") →
        firstPruned core url (preL ++ node :: post) = prune_html core node url := by
      intro preL
      induction preL with
      | nil =>
        intro _
        rw [List.nil_append, firstPruned_cons, if_pos hne]
      | cons m rest ih =>
        intro hallL
        have hm := hallL m (by simp)
        rw [List.cons_append, firstPruned_cons, hm, if_neg (by simp)]
        exact ih (fun x hx => hallL x (by simp [hx]))
    have h1 : (match trafOut html with
        | none => ""
        | some out => prune_html core out url) = "" := by
      cases ht : trafOut html with
      | none => rfl
      | some o => exact htraf o ht
    have h2 : (match readabOut html with
        | none => ""
        | some out => prune_html core out url) = "" := by
      cases hr : readabOut html with
      | none => rfl
      | some o => exact hread o hr
    unfold extract_main_content
    rw [h1, h2, hnodes]
    simpa using hfp pre hall
  · intro h b cl out hc hlt
    simp [prune_html, hc, hlt]

def c7long : String := String.mk (List.replicate 120 'a')

def c7core : String → String → Option (String × String) :=
  fun h _ =>
    if h = "good" then some (c7long, "OUT")
    else if h = "boom" then none
    else some ("short", "IGNORED")

def c7traf : String → Option String := fun _ => some "bad1"
def c7read : String → Option String := fun _ => none
def c7nodes : String → List String := fun _ => ["boom", "good", "late"]

set_option maxRecDepth 8000 in
theorem extractor_chain_first_clearing_witness :
    prune_html c7core "bad1" "u" = "" ∧
    prune_html c7core "good" "u" = "OUT" ∧
    extract_main_content c7core c7traf c7read c7nodes "page" "u" =
      prune_html c7core "good" "u" := by
  refine ⟨by decide, by decide, ?_⟩
  refine (extractor_chain_first_clearing c7core c7traf c7read c7nodes "page" "u").2.1
    ?_ ?_ ["boom"] "good" ["late"] rfl ?_ ?_
  · intro o h
    have ho : "bad1" = o := Option.some.inj h
    rw [← ho]
    decide
  · intro o h
    nomatch h
  · intro m hm
    have hm2 : m = "boom" := by simpa using hm
    rw [hm2]
    decide
  · decide

/-- C1: when a source configures an explicit feed endpoint, fetch_source
fetches and parses that endpoint as the authoritative source: on success
it returns exactly the parsed feed's items with no error, on failure the
error string with no items, and the result is independent of the homepage
fetcher, the feed discovery, the structural selector and the URL joiner —
the HTTP oracle is consulted only at the feed endpoint — so no fallback
of any kind is attempted. -/
theorem explicit_feed_is_authoritative
    (dtparse : String → Option Int) (fmt : Int → String) (getText : String → String)
    (httpGet : HttpGetOracle) (feedOf : String → List FeedEntry)
    (findFeeds : String → String → List String)
    (selectEls : String → Option String → List ScrapeEl)
    (joinUrl : String → String → String) (src : Source)
    (hfeed : getStr src.feed ≠ "") :
    (∀ es, parseFeedWithHeaders httpGet feedOf (getStr src.feed) = Except.ok es →
      fetch_source dtparse fmt getText httpGet feedOf findFeeds selectEls joinUrl src =
        (src.name.getD "Unknown Source", feedEntriesToItems dtparse fmt getText es,
          none)) ∧
    (∀ msg, parseFeedWithHeaders httpGet feedOf (getStr src.feed) = Except.error msg →
      fetch_source dtparse fmt getText httpGet feedOf findFeeds selectEls joinUrl src =
        (src.name.getD "Unknown Source", [], some msg)) ∧
    (∀ (httpGet2 : HttpGetOracle) (findFeeds2 : String → String → List String)
        (selectEls2 : String → Option String → List ScrapeEl)
        (joinUrl2 : String → String → String),
      httpGet2 (getStr src.feed) = httpGet (getStr src.feed) →
      fetch_source dtparse fmt getText httpGet2 feedOf findFeeds2 selectEls2 joinUrl2 src =
        fetch_source dtparse fmt getText httpGet feedOf findFeeds selectEls joinUrl src) := by
  refine ⟨?_, ?_, ?_⟩
  · intro es h
    simp [fetch_source, hfeed, h]
  · intro msg h
    simp [fetch_source, hfeed, h]
  · intro httpGet2 findFeeds2 selectEls2 joinUrl2 heq
    simp [fetch_source, hfeed, parseFeedWithHeaders, heq]

def c1src : Source := ⟨some "S", some "feedurl", some "homepage", none⟩

def c1entry : FeedEntry :=
  ⟨some "http://x/a?q=1", some " Budget  update ", some "sum", none, some "3600",
    none, none⟩

def c1get : HttpGetOracle :=
  fun u => if u = "feedurl" then Except.ok "bytes" else Except.error "boom"

def c1feedOf : String → List FeedEntry := fun _ => [c1entry]

theorem explicit_feed_is_authoritative_witness :
    getStr c1src.feed ≠ "" ∧
    parseFeedWithHeaders c1get c1feedOf (getStr c1src.feed) = Except.ok [c1entry] ∧
    fetch_source demoParse demoFmt (fun s => s) c1get c1feedOf (fun _ _ => ["x"])
      (fun _ _ => []) (fun _ h => h) c1src =
      ("S", feedEntriesToItems demoParse demoFmt (fun s => s) [c1entry], none) := by
  refine ⟨by decide, rfl, ?_⟩
  exact (explicit_feed_is_authoritative demoParse demoFmt (fun s => s) c1get c1feedOf
    (fun _ _ => ["x"]) (fun _ _ => []) (fun _ h => h) c1src (by decide)).1
    [c1entry] rfl

theorem robotsConsistent_set (readRobots : String → Option RobotsPolicy)
    (rc : RobotsDirs) (b : String) (v : Option RobotsPolicy)
    (hcons : robotsConsistent readRobots rc)
    (hv : ∀ rp, v = some rp → readRobots b = some rp) :
    robotsConsistent readRobots (setAssoc rc b v) := by
  intro b2 rp2 hlk
  by_cases hb : b2 = b
  · subst hb
    rw [lookupAssoc_setAssoc_self] at hlk
    exact hv rp2 (Option.some.inj hlk)
  · rw [lookupAssoc_setAssoc_ne rc b b2 v hb] at hlk
    exact hcons b2 rp2 hlk

theorem robots_step (urlParts : String → String × String)
    (readRobots : String → Option RobotsPolicy) (rc : RobotsDirs) (url : String)
    (hcons : robotsConsistent readRobots rc) :
    (robots_can_fetch urlParts readRobots rc url).1 =
      allowedBy urlParts readRobots url ∧
    robotsConsistent readRobots (robots_can_fetch urlParts readRobots rc url).2 := by
  unfold robots_can_fetch allowedBy
  cases hlook : lookupAssoc rc (urlParts url).1 with
  | none =>
    cases hread : readRobots (urlParts url).1 with
    | none =>
      simp only [hlook, hread]
      exact ⟨by trivial, robotsConsistent_set readRobots rc _ none hcons
        (fun rp h => nomatch h)⟩
    | some rp =>
      simp only [hlook, hread]
      refine ⟨by trivial, robotsConsistent_set readRobots rc _ (some rp) hcons ?_⟩
      intro rp2 h
      rw [← Option.some.inj h]
      exact hread
  | some orp =>
    cases orp with
    | some rp =>
      have hr := hcons _ _ hlook
      simp only [hlook, hr]
      exact ⟨by trivial, hcons⟩
    | none =>
      cases hread : readRobots (urlParts url).1 with
      | none =>
        simp only [hlook, hread]
        exact ⟨by trivial, robotsConsistent_set readRobots rc _ none hcons
          (fun rp h => nomatch h)⟩
      | some rp =>
        simp only [hlook, hread]
        refine ⟨by trivial, robotsConsistent_set readRobots rc _ (some rp) hcons ?_⟩
        intro rp2 h
        rw [← Option.some.inj h]
        exact hread

theorem selectLoop_allowed (dtparse : String → Option Int)
    (urlParts : String → String × String) (readRobots : String → Option RobotsPolicy)
    (ccache : Cache) (now : Int) :
    ∀ (kept : List Item) (rc : RobotsDirs), robotsConsistent readRobots rc →
      (∀ it ∈ (selectLoop dtparse urlParts readRobots ccache now rc kept).1,
        allowedBy urlParts readRobots it.url = true) ∧
      robotsConsistent readRobots
        (selectLoop dtparse urlParts readRobots ccache now rc kept).2 := by
  intro kept
  induction kept with
  | nil =>
    intro rc hcons
    constructor
    · intro it hit
      simp [selectLoop] at hit
    · simpa [selectLoop] using hcons
  | cons it rest ih =>
    intro rc hcons
    by_cases h1 : it.url = ""
    · simpa [selectLoop, h1] using ih rc hcons
    · by_cases h2 : getStr (cache_get dtparse ccache it.url now) ≠ ""
      · simpa [selectLoop, h1, h2] using ih rc hcons
      · have hstep := robots_step urlParts readRobots rc it.url hcons
        have ihres := ih (robots_can_fetch urlParts readRobots rc it.url).2 hstep.2
        by_cases h3 : (robots_can_fetch urlParts readRobots rc it.url).1 = true
        · constructor
          · intro x hx
            simp only [selectLoop, if_neg h1, if_neg h2, if_pos h3] at hx
            rcases List.mem_cons.1 hx with hx1 | hx2
            · rw [hx1, ← hstep.1]
              exact h3
            · exact ihres.1 x hx2
          · simp only [selectLoop, if_neg h1, if_neg h2, if_pos h3]
            exact ihres.2
        · constructor
          · intro x hx
            simp only [selectLoop, if_neg h1, if_neg h2, if_neg h3] at hx
            exact ihres.1 x hx
          · simp only [selectLoop, if_neg h1, if_neg h2, if_neg h3]
            exact ihres.2

/-- C8: every item in the ConcurrentFetcher input set (the capped
to_fetch list built by main) passed the politeness check, so a URL whose
robots directives disallow it never appears there; and when the robots
read for an origin fails, the gate defaults to allow, both as the
stateless verdict and through robots_can_fetch. -/
theorem robots_disallowed_never_fetched
    (dtparse : String → Option Int) (urlParts : String → String × String)
    (readRobots : String → Option RobotsPolicy) (ccache : Cache) (now : Int)
    (rc : RobotsDirs) (kept : List Item)
    (hcons : robotsConsistent readRobots rc) :
    (∀ it ∈ toFetchSet dtparse urlParts readRobots ccache now rc kept,
      allowedBy urlParts readRobots it.url = true) ∧
    (∀ url2, readRobots (urlParts url2).1 = none →
      allowedBy urlParts readRobots url2 = true ∧
      (robots_can_fetch urlParts readRobots rc url2).1 = true) := by
  constructor
  · intro it hit
    unfold toFetchSet at hit
    exact (selectLoop_allowed dtparse urlParts readRobots ccache now kept rc hcons).1
      it (List.mem_of_mem_take hit)
  · intro url2 hnone
    have h1 : allowedBy urlParts readRobots url2 = true := by
      simp [allowedBy, hnone]
    refine ⟨h1, ?_⟩
    rw [(robots_step urlParts readRobots rc url2 hcons).1, h1]

def c8parts : String → String × String :=
  fun u =>
    if u = "http://a/ok" then ("http://a", "/ok")
    else if u = "http://a/no" then ("http://a", "/no")
    else ("http://b", "/")

def c8read : String → Option RobotsPolicy :=
  fun b => if b = "http://a" then some (fun p => p = "/ok") else none

def c8itA : Item := ⟨"t", "http://a/ok", "", none⟩
def c8itB : Item := ⟨"t", "http://a/no", "", none⟩

theorem robots_disallowed_never_fetched_witness :
    (∀ it ∈ toFetchSet demoParse c8parts c8read [] 0 [] [c8itA, c8itB],
      allowedBy c8parts c8read it.url = true) ∧
    allowedBy c8parts c8read "http://a/no" = false ∧
    c8itB ∉ toFetchSet demoParse c8parts c8read [] 0 [] [c8itA, c8itB] ∧
    c8itA ∈ toFetchSet demoParse c8parts c8read [] 0 [] [c8itA, c8itB] := by
  have hcons : robotsConsistent c8read [] := by
    intro b rp h
    simp [lookupAssoc] at h
  refine ⟨(robots_disallowed_never_fetched demoParse c8parts c8read [] 0 []
    [c8itA, c8itB] hcons).1, ?_, ?_, ?_⟩
  · decide
  · decide
  · decide

theorem takeWhile_self_idem {α : Type} (p : α → Bool) (xs : List α) :
    (xs.takeWhile p).takeWhile p = xs.takeWhile p := by
  induction xs with
  | nil => rfl
  | cons x rest ih =>
    by_cases h : p x = true
    · simp [List.takeWhile_cons, h, ih]
    · simp [List.takeWhile_cons, h]

theorem clean_url_idem (u : String) : clean_url (clean_url u) = clean_url u :=
  congrArg String.mk (takeWhile_self_idem _ _)

theorem restrip_url (it : Item) : (restrip it).url = it.url := rfl

theorem entryToItem?_some (dtparse : String → Option Int) (fmt : Int → String)
    (getText : String → String) (e : FeedEntry) (it : Item)
    (h : entryToItem? dtparse fmt getText e = some it) :
    it.url = clean_url (getStr e.link) ∧ it.title = strip_ws (getStr e.title) ∧
    it.url ≠ "" ∧ it.title ≠ "" := by
  unfold entryToItem? at h
  by_cases h1 : clean_url (getStr e.link) = ""
  · simp [h1] at h
  · by_cases h2 : strip_ws (getStr e.title) = ""
    · simp [h1, h2] at h
    · simp [h1, h2] at h
      rw [← h]
      exact ⟨rfl, rfl, h1, h2⟩

theorem entryToItem?_produces (dtparse : String → Option Int) (fmt : Int → String)
    (getText : String → String) (e : FeedEntry)
    (h1 : clean_url (getStr e.link) ≠ "") (h2 : strip_ws (getStr e.title) ≠ "") :
    entryToItem? dtparse fmt getText e =
      some ⟨strip_ws (getStr e.title), clean_url (getStr e.link),
        strip_ws (getText (if getStr e.summary ≠ "" then getStr e.summary
          else getStr e.description)),
        (parse_entry_datetime dtparse e).map fmt⟩ := by
  unfold entryToItem?
  simp [h1, h2]

theorem scrape_mem_spec (joinUrl : String → String → String) (base : String)
    (els : List ScrapeEl) (it : Item)
    (h : it ∈ scrape_items_from_page joinUrl base els) :
    ∃ el ∈ els, getStr el.href ≠ "" ∧ strip_ws el.text ≠ "" ∧
      it = ⟨strip_ws el.text, clean_url (joinUrl base (getStr el.href)), "", none⟩ := by
  unfold scrape_items_from_page at h
  rcases List.mem_filterMap.1 h with ⟨el, hel, hf⟩
  by_cases h1 : getStr el.href = ""
  · simp [h1] at hf
  · by_cases h2 : strip_ws el.text = ""
    · simp [h1, h2] at hf
    · refine ⟨el, hel, h1, h2, ?_⟩
      simp [h1, h2] at hf
      exact hf.symm

theorem scrape_produces (joinUrl : String → String → String) (base : String)
    (els : List ScrapeEl) (el : ScrapeEl) (hel : el ∈ els)
    (h1 : getStr el.href ≠ "") (h2 : strip_ws el.text ≠ "") :
    (⟨strip_ws el.text, clean_url (joinUrl base (getStr el.href)), "", none⟩ : Item) ∈
      scrape_items_from_page joinUrl base els := by
  unfold scrape_items_from_page
  exact List.mem_filterMap.2 ⟨el, hel, by simp [h1, h2]⟩

theorem dedup_guard (seen : List String) (it : Item) :
    (it.url = "" || seen.contains it.url) = true ↔ it.url = "" ∨ it.url ∈ seen := by
  simp [List.contains, List.elem_iff]

theorem dedupLoop_invariant (l : List Item) : ∀ seen : List String,
    ((dedupLoop seen l).map Item.url).Nodup ∧
    (∀ it2 ∈ dedupLoop seen l, it2.url ∉ seen ∧ it2.url ≠ "" ∧
      ∃ x ∈ l, it2 = restrip x) := by
  induction l with
  | nil =>
    intro seen
    exact ⟨by simp [dedupLoop], by simp [dedupLoop]⟩
  | cons it rest ih =>
    intro seen
    by_cases hskip : (it.url = "" || seen.contains it.url) = true
    · have hred : dedupLoop seen (it :: rest) = dedupLoop seen rest := by
        simp only [dedupLoop, if_pos hskip]
      rw [hred]
      refine ⟨(ih seen).1, ?_⟩
      intro it2 h2
      obtain ⟨ha, hb, x, hx, he⟩ := (ih seen).2 it2 h2
      exact ⟨ha, hb, x, List.mem_cons_of_mem _ hx, he⟩
    · have hx0 : ¬(it.url = "" ∨ it.url ∈ seen) :=
        fun hc => hskip ((dedup_guard seen it).2 hc)
      have hne : it.url ≠ "" := fun h => hx0 (Or.inl h)
      have hnotin : it.url ∉ seen := fun h => hx0 (Or.inr h)
      have hred : dedupLoop seen (it :: rest) =
          restrip it :: dedupLoop (it.url :: seen) rest := by
        simp only [dedupLoop, if_neg hskip]
      rw [hred]
      have ih2 := ih (it.url :: seen)
      constructor
      · simp only [List.map_cons, restrip_url]
        rw [List.nodup_cons]
        constructor
        · intro hmem
          rcases List.mem_map.1 hmem with ⟨y, hy, hyu⟩
          exact (ih2.2 y hy).1 (by rw [hyu]; exact List.mem_cons_self _ _)
        · exact ih2.1
      · intro it2 h2
        rcases List.mem_cons.1 h2 with h2e | h2r
        · refine ⟨?_, ?_, it, List.mem_cons_self _ _, h2e⟩
          · rw [h2e, restrip_url]
            exact hnotin
          · rw [h2e, restrip_url]
            exact hne
        · obtain ⟨ha, hb, x, hx, he⟩ := ih2.2 it2 h2r
          exact ⟨fun h => ha (List.mem_cons_of_mem _ h), hb, x,
            List.mem_cons_of_mem _ hx, he⟩

theorem dedupLoop_presence (l : List Item) : ∀ seen, ∀ x ∈ l, x.url ≠ "" →
    x.url ∈ seen ∨ ∃ it2 ∈ dedupLoop seen l, it2.url = x.url := by
  induction l with
  | nil =>
    intro seen x hx _
    exact absurd hx (List.not_mem_nil x)
  | cons it rest ih =>
    intro seen x hx hne
    by_cases hskip : (it.url = "" || seen.contains it.url) = true
    · have hred : dedupLoop seen (it :: rest) = dedupLoop seen rest := by
        simp only [dedupLoop, if_pos hskip]
      rw [hred]
      rcases List.mem_cons.1 hx with hxe | hxr
      · rcases (dedup_guard seen it).1 hskip with hc | hc
        · rw [hxe] at hne
          exact absurd hc hne
        · left
          rw [hxe]
          exact hc
      · exact ih seen x hxr hne
    · have hred : dedupLoop seen (it :: rest) =
          restrip it :: dedupLoop (it.url :: seen) rest := by
        simp only [dedupLoop, if_neg hskip]
      rw [hred]
      rcases List.mem_cons.1 hx with hxe | hxr
      · right
        exact ⟨restrip it, List.mem_cons_self _ _, by rw [restrip_url, hxe]⟩
      · rcases ih (it.url :: seen) x hxr hne with hin | ⟨it2, h2, he⟩
        · rcases List.mem_cons.1 hin with h | h
          · right
            refine ⟨restrip it, List.mem_cons_self _ _, ?_⟩
            rw [restrip_url]
            exact h.symm
          · left
            exact h
        · right
          exact ⟨it2, List.mem_cons_of_mem _ h2, he⟩

theorem dedupLoop_first_seen (l : List Item) : ∀ seen, ∀ it2 ∈ dedupLoop seen l,
    ∃ fst, l.find? (fun x => x.url == it2.url) = some fst ∧ it2 = restrip fst := by
  induction l with
  | nil =>
    intro seen it2 h2
    simp [dedupLoop] at h2
  | cons it rest ih =>
    intro seen it2 h2
    by_cases hskip : (it.url = "" || seen.contains it.url) = true
    · have hred : dedupLoop seen (it :: rest) = dedupLoop seen rest := by
        simp only [dedupLoop, if_pos hskip]
      rw [hred] at h2
      have hprops := (dedupLoop_invariant rest seen).2 it2 h2
      have hdiff : it.url ≠ it2.url := by
        rcases (dedup_guard seen it).1 hskip with hc | hc
        · rw [hc]
          exact fun h => hprops.2.1 h.symm
        · intro h
          exact hprops.1 (h ▸ hc)
      rw [List.find?_cons_of_neg _ (by simp [hdiff])]
      exact ih seen it2 h2
    · have hred : dedupLoop seen (it :: rest) =
          restrip it :: dedupLoop (it.url :: seen) rest := by
        simp only [dedupLoop, if_neg hskip]
      rw [hred] at h2
      rcases List.mem_cons.1 h2 with h2e | h2r
      · refine ⟨it, ?_, h2e⟩
        rw [List.find?_cons_of_pos _ (by simp [h2e, restrip_url])]
      · have hprops := (dedupLoop_invariant rest (it.url :: seen)).2 it2 h2r
        have hdiff : it.url ≠ it2.url := by
          intro h
          exact hprops.1 (by rw [← h]; exact List.mem_cons_self _ _)
        rw [List.find?_cons_of_neg _ (by simp [hdiff])]
        exact ih (it.url :: seen) it2 h2r

/-- C2: the canonical URL (query string and fragment stripped) is the
sole dedup key: clean_url is idempotent; every item the feed loops and
the structural scrape produce carries an already-canonical URL; and for
any merged list of such items the dedup pass keeps exactly one survivor
per canonical URL — no two survivors share one, every nonempty URL
present in the input keeps exactly one representative — and that survivor
is the first-seen occurrence (the first input element bearing its URL,
whitespace-renormalised in place).  Two raw items whose URLs differ only
by query string or fragment therefore collapse to one canonical URL, of
which exactly the first-seen survives. -/
theorem dedup_sole_key_canonical_first_seen :
    (∀ u, clean_url (clean_url u) = clean_url u) ∧
    (∀ (dtparse : String → Option Int) (fmt : Int → String)
        (getText : String → String) (es : List FeedEntry),
      ∀ it ∈ feedEntriesToItems dtparse fmt getText es, clean_url it.url = it.url) ∧
    (∀ (joinUrl : String → String → String) (base : String) (els : List ScrapeEl),
      ∀ it ∈ scrape_items_from_page joinUrl base els, clean_url it.url = it.url) ∧
    (∀ l : List Item, (∀ it ∈ l, clean_url it.url = it.url) →
      ((dedupPass l).map (fun it => clean_url it.url)).Nodup ∧
      (∀ it ∈ l, it.url ≠ "" → ∃ it2 ∈ dedupPass l, it2.url = it.url) ∧
      (∀ it2 ∈ dedupPass l,
        ∃ fst, l.find? (fun x => x.url == it2.url) = some fst ∧
          it2 = restrip fst ∧ it2.url = fst.url)) := by
  refine ⟨clean_url_idem, ?_, ?_, ?_⟩
  · intro dtparse fmt getText es it hmem
    unfold feedEntriesToItems at hmem
    rcases List.mem_filterMap.1 hmem with ⟨e, _, hf⟩
    rw [(entryToItem?_some dtparse fmt getText e it hf).1]
    exact clean_url_idem _
  · intro joinUrl base els it hmem
    obtain ⟨el, _, _, _, he⟩ := scrape_mem_spec joinUrl base els it hmem
    rw [he]
    exact clean_url_idem _
  · intro l hcanon
    refine ⟨?_, ?_, ?_⟩
    · have hcin : ∀ it2 ∈ dedupPass l, clean_url it2.url = it2.url := by
        intro it2 h2
        obtain ⟨_, _, x, hx, he⟩ := (dedupLoop_invariant l []).2 it2 h2
        rw [he, restrip_url]
        exact hcanon x hx
      have hmapeq : (dedupPass l).map (fun it2 => clean_url it2.url) =
          (dedupPass l).map Item.url := List.map_congr_left hcin
      rw [hmapeq]
      exact (dedupLoop_invariant l []).1
    · intro it hmem hne
      rcases dedupLoop_presence l [] it hmem hne with h | h
      · exact absurd h (List.not_mem_nil _)
      · exact h
    · intro it2 h2
      obtain ⟨fst, hfind, he⟩ := dedupLoop_first_seen l [] it2 h2
      exact ⟨fst, hfind, he, by rw [he, restrip_url]⟩

def c2i1 : Item := ⟨"A", "http://x/a", "", none⟩
def c2i2 : Item := ⟨"B", "http://x/a", "", none⟩
def c2i3 : Item := ⟨"C", "http://x/b", "", none⟩
def c2list : List Item := [c2i1, c2i2, c2i3]

theorem dedup_sole_key_canonical_first_seen_witness :
    (∀ it ∈ c2list, clean_url it.url = it.url) ∧
    (((dedupPass c2list).map (fun it => clean_url it.url)).Nodup ∧
      (∀ it ∈ c2list, it.url ≠ "" → ∃ it2 ∈ dedupPass c2list, it2.url = it.url) ∧
      (∀ it2 ∈ dedupPass c2list,
        ∃ fst, c2list.find? (fun x => x.url == it2.url) = some fst ∧
          it2 = restrip fst ∧ it2.url = fst.url)) := by
  have h : ∀ it ∈ c2list, clean_url it.url = it.url := by decide
  exact ⟨h, dedup_sole_key_canonical_first_seen.2.2.2 c2list h⟩

/-- An entry that carries a link but no title at all. -/
def c9entry : FeedEntry := ⟨some "http://x/a", none, none, none, none, none, none⟩

/-- C9 counterexample: the feed loop of fetch_source silently discards an
entry that has a URL but no title, so such an item is NOT still produced,
contrary to the claim. -/
theorem url_without_title_not_produced :
    clean_url (getStr c9entry.link) ≠ "" ∧ strip_ws (getStr c9entry.title) = "" ∧
    feedEntriesToItems demoParse demoFmt (fun s => s) [c9entry] = [] := by
  exact ⟨by decide, by decide, by decide⟩

/-- C9 amended: during source resolution an extracted item is discarded
silently when its URL or its title is missing or empty after
normalisation, and only items with both survive: the feed loop never
produces an item with an empty URL or an empty title, and produces an
item for every entry among the first 80 whose cleaned link and stripped
title are both nonempty; likewise the structural scrape never produces an
item with an empty title, skips exactly the elements with a missing href
or empty stripped text, and produces an item for every element with
both. -/
theorem discard_unless_title_and_url
    (dtparse : String → Option Int) (fmt : Int → String) (getText : String → String)
    (es : List FeedEntry) (e : FeedEntry) (joinUrl : String → String → String)
    (base : String) (els : List ScrapeEl) (el : ScrapeEl) :
    (∀ it ∈ feedEntriesToItems dtparse fmt getText es,
      it.url ≠ "" ∧ it.title ≠ "") ∧
    (e ∈ es.take 80 → clean_url (getStr e.link) ≠ "" →
      strip_ws (getStr e.title) ≠ "" →
      ∃ it ∈ feedEntriesToItems dtparse fmt getText es,
        it.url = clean_url (getStr e.link) ∧
        it.title = strip_ws (getStr e.title)) ∧
    (∀ it ∈ scrape_items_from_page joinUrl base els,
      it.title ≠ "" ∧ ∃ el2 ∈ els, getStr el2.href ≠ "" ∧
        strip_ws el2.text ≠ "" ∧
        it = ⟨strip_ws el2.text, clean_url (joinUrl base (getStr el2.href)), "",
          none⟩) ∧
    (el ∈ els → getStr el.href ≠ "" → strip_ws el.text ≠ "" →
      (⟨strip_ws el.text, clean_url (joinUrl base (getStr el.href)), "",
        none⟩ : Item) ∈ scrape_items_from_page joinUrl base els) := by
  refine ⟨?_, ?_, ?_, ?_⟩
  · intro it hmem
    unfold feedEntriesToItems at hmem
    rcases List.mem_filterMap.1 hmem with ⟨e2, _, hf⟩
    have hs := entryToItem?_some dtparse fmt getText e2 it hf
    exact ⟨hs.2.2.1, hs.2.2.2⟩
  · intro hmem h1 h2
    refine ⟨⟨strip_ws (getStr e.title), clean_url (getStr e.link),
      strip_ws (getText (if getStr e.summary ≠ "" then getStr e.summary
        else getStr e.description)),
      (parse_entry_datetime dtparse e).map fmt⟩, ?_, rfl, rfl⟩
    unfold feedEntriesToItems
    exact List.mem_filterMap.2 ⟨e, hmem, entryToItem?_produces dtparse fmt getText e h1 h2⟩
  · intro it hmem
    obtain ⟨el2, hel2, ha, hb, he⟩ := scrape_mem_spec joinUrl base els it hmem
    refine ⟨?_, el2, hel2, ha, hb, he⟩
    rw [he]
    exact hb
  · intro hel h1 h2
    exact scrape_produces joinUrl base els el hel h1 h2

def c9good : FeedEntry :=
  ⟨some "http://x/g?z=1", some " Good  title ", none, none, none, none, none⟩

def c9el : ScrapeEl := ⟨some "/p", " Link  text "⟩

theorem discard_unless_title_and_url_witness :
    (∃ it ∈ feedEntriesToItems demoParse demoFmt (fun s => s) [c9good],
      it.url = clean_url (getStr c9good.link) ∧
      it.title = strip_ws (getStr c9good.title)) ∧
    (⟨strip_ws c9el.text,
      clean_url (String.append "http://x" (getStr c9el.href)), "",
      none⟩ : Item) ∈
      scrape_items_from_page (fun b h => String.append b h) "http://x" [c9el] := by
  have H := discard_unless_title_and_url demoParse demoFmt (fun s => s) [c9good]
    c9good (fun b h => String.append b h) "http://x" [c9el] c9el
  exact ⟨H.2.1 (by decide) (by decide) (by decide),
    H.2.2.2 (by decide) (by decide) (by decide)⟩

end NewsApp
